import Mathlib

/-
Verification of the "Paradox Analyzer" (`analyze_points` in project/app/test.py).

The source represents a point as a single-entry mapping
`{home_id: [volts, ampers, power, resistance]}`; we embed it as a record
with the identifier and the four measured values.  Python floats are
modelled by exact rationals.  `max(deltas, key=...)` on the empty list
raises `ValueError` in Python; the embedding returns `Except.error
AnalyzeError.emptyMax` there, and `.ok` otherwise.
-/

/-- A measurement point: identifier plus the four floats that the source
stores positionally as `[volts, ampers, power, resistance]`. -/
structure Point where
  home_id : Int
  volts : ℚ
  ampers : ℚ
  power : ℚ
  resistance : ℚ
  deriving Repr, DecidableEq

/-- Default point used only to totalise list indexing; every theorem's
index hypotheses keep accesses in bounds. -/
def dfltPoint : Point := ⟨0, 0, 0, 0, 0⟩

/-- Positional access into the per-point value list `[volts, ampers, power,
resistance]` of the source encoding. -/
def point_val (p : Point) : Nat → ℚ
  | 0 => p.volts
  | 1 => p.ampers
  | 2 => p.power
  | 3 => p.resistance
  | _ => 0

/-- Translation of `sum_by_index`: sums the value at position `index` of
every record of `data` (the source only ever calls it with `index = 1`,
the current). -/
def sum_by_index (data : List Point) (index : Nat) : ℚ :=
  (data.map (fun d => point_val d index)).sum

/-- One entry of the `deltas` list built by `analyze_points`:
the dict `{"delta": ..., "home_id": ...}`. -/
structure DeltaEntry where
  delta : ℚ
  home_id : Int
  deriving Repr, DecidableEq

/-- Default entry used only to totalise list indexing. -/
def dfltEntry : DeltaEntry := ⟨0, 0⟩

/-- The failure mode of `analyze_points`: Python `max()` applied to an
empty sequence raises `ValueError`.  The source contains no other raise
and no explicit insufficient-data guard. -/
inductive AnalyzeError where
  | emptyMax
  deriving Repr, DecidableEq

/-- The body of the loop of `analyze_points` at candidate index `i`:
reads `points[i]` and `points[i+1]`, computes the guarded `volt_power`,
sums the currents of `points[i+2:]`, and produces the guarded `delta`
together with the candidate's identifier. -/
def deltaEntryAt (points : List Point) (i : Nat) : DeltaEntry :=
  let current := points.getD i dfltPoint
  let next_home := points.getD (i + 1) dfltPoint
  let home_id := current.home_id
  let current_volts := current.volts
  let current_resistance := current.resistance
  let next_volts := next_home.volts
  let volt_diff := (current_volts - next_volts) ^ 2
  let volt_power := if current_resistance ≠ 0 then volt_diff / current_resistance else 0
  let future_points := points.drop (i + 2)
  let future_ampers_sum := sum_by_index future_points 1
  let delta :=
    if future_ampers_sum = 0 ∨ current_resistance = 0 then 0
    else
      let amper_power := future_ampers_sum ^ 2 * current_resistance
      volt_power / amper_power
  { delta := delta, home_id := home_id }

/-- The `deltas` list of `analyze_points`: one entry for each index of
`range(1, len(points) - 1)`, i.e. the candidate indices `1 .. n-2`. -/
def deltas_list (points : List Point) : List DeltaEntry :=
  (List.range' 1 (points.length - 2)).map (deltaEntryAt points)

/-- Python's binary comparison step of `max(..., key=lambda x: x["delta"])`:
the new element replaces the best so far only when its key is strictly
greater, so the earliest maximum is kept. -/
def pyMax2 (best y : DeltaEntry) : DeltaEntry :=
  if best.delta < y.delta then y else best

/-- Python's `max(l, key=lambda x: x["delta"])`: `ValueError` on the empty
list, otherwise the left fold of `pyMax2` over the elements. -/
def python_max (l : List DeltaEntry) : Except AnalyzeError DeltaEntry :=
  match l with
  | [] => .error .emptyMax
  | x :: xs => .ok (xs.foldl pyMax2 x)

/-- Translation of `analyze_points`: build the `deltas` list over the
candidate indices and take the Python maximum by `delta`. -/
def analyze_points (points : List Point) : Except AnalyzeError DeltaEntry :=
  python_max (deltas_list points)

/-- The formula of §4.1 of the specification, written from the spec's own
wording: `volt_power = (V_i - V_{i+1})^2 / R_i` (0 when `R_i = 0`),
`future_ampers_sum` the summed current of `points[i+2:]`,
`amper_power = future_ampers_sum^2 * R_i`, and `delta = 0` when
`future_ampers_sum = 0` or `R_i = 0`, else `volt_power / amper_power`. -/
def spec_delta (points : List Point) (i : Nat) : ℚ :=
  let Vi := (points.getD i dfltPoint).volts
  let Ri := (points.getD i dfltPoint).resistance
  let Vnext := (points.getD (i + 1) dfltPoint).volts
  let volt_power := if Ri = 0 then 0 else (Vi - Vnext) ^ 2 / Ri
  let future_ampers_sum := ((points.drop (i + 2)).map (fun p => p.ampers)).sum
  let amper_power := future_ampers_sum ^ 2 * Ri
  if future_ampers_sum = 0 ∨ Ri = 0 then 0 else volt_power / amper_power

/-- State-explicit translation of `analyze_points`: the loop is folded with
the `points` list threaded through every iteration; each iteration reads
`points[i]`, `points[i+1]`, `points[i+2:]` and appends one entry to
`deltas` — no statement of the source assigns into `points`. -/
def analyze_points_run (points : List Point) :
    Except AnalyzeError DeltaEntry × List Point :=
  let step : List DeltaEntry × List Point → Nat → List DeltaEntry × List Point :=
    fun s i => (s.1 ++ [deltaEntryAt s.2 i], s.2)
  let r := (List.range' 1 (points.length - 2)).foldl step ([], points)
  (python_max r.1, r.2)

/-- The 19-point sample series from the source module (`data`). -/
def data : List Point :=
  [⟨1, 230.0, 84.49, 19002.0, 0.0⟩,
   ⟨2, 228.732, 7.15, 1635.0, 0.015⟩,
   ⟨3, 227.572, 6.15, 1635.0, 0.015⟩,
   ⟨4, 226.504, 3.65, 827.0, 0.015⟩,
   ⟨5, 225.491, 4.18, 941.0, 0.015⟩,
   ⟨6, 224.54, 4.78, 1073.0, 0.015⟩,
   ⟨7, 223.661, 3.99, 893.0, 0.015⟩,
   ⟨8, 222.842, 2.93, 653.0, 0.015⟩,
   ⟨9, 222.067, 4.72, 1049.0, 0.015⟩,
   ⟨10, 221.362, 4.61, 1021.0, 0.015⟩,
   ⟨11, 220.727, 5.13, 1133.0, 0.015⟩,
   ⟨12, 220.169, 4.89, 1077.0, 0.015⟩,
   ⟨13, 219.684, 4.22, 928.0, 0.015⟩,
   ⟨14, 219.263, 4.77, 1045.0, 0.015⟩,
   ⟨15, 218.913, 3.84, 840.0, 0.015⟩,
   ⟨16, 218.621, 4.55, 995.0, 0.015⟩,
   ⟨17, 218.397, 4.85, 1060.0, 0.015⟩,
   ⟨18, 218.246, 3.26, 710.0, 0.015⟩,
   ⟨19, 218.144, 6.82, 1487.0, 0.015⟩]

/-! ### Helper lemmas -/

theorem getD_cons_append_lt (x y : DeltaEntry) (ys : List DeltaEntry) (k : Nat)
    (hk : k < (x :: ys).length) :
    (x :: (ys ++ [y])).getD k dfltEntry = (x :: ys).getD k dfltEntry := by
  cases k with
  | zero => rfl
  | succ m =>
    simp only [List.getD_cons_succ]
    exact List.getD_append ys [y] dfltEntry m (by simpa using hk)

/-- The left fold of `pyMax2` returns the first element of maximal `delta`:
it occurs at an index `j`, every earlier element has strictly smaller
`delta`, and no element has larger `delta`. -/
theorem foldl_pyMax2_first (x : DeltaEntry) (xs : List DeltaEntry) :
    ∃ j, j < (x :: xs).length ∧
      (x :: xs).getD j dfltEntry = List.foldl pyMax2 x xs ∧
      (∀ k, k < j →
        ((x :: xs).getD k dfltEntry).delta < (List.foldl pyMax2 x xs).delta) ∧
      (∀ k, k < (x :: xs).length →
        ((x :: xs).getD k dfltEntry).delta ≤ (List.foldl pyMax2 x xs).delta) := by
  induction xs using List.reverseRecOn with
  | nil =>
    refine ⟨0, by simp, rfl, by omega, ?_⟩
    intro k hk
    have hk0 : k = 0 := by simp at hk; omega
    subst hk0
    exact le_refl _
  | append_singleton ys y ih =>
    obtain ⟨j, hj, hget, hfirst, hmax⟩ := ih
    have hfold : List.foldl pyMax2 x (ys ++ [y]) =
        pyMax2 (List.foldl pyMax2 x ys) y := by
      rw [List.foldl_append]; rfl
    set r := List.foldl pyMax2 x ys with hr
    by_cases hlt : r.delta < y.delta
    · -- the new element strictly improves: it becomes the first maximum
      have hy : List.foldl pyMax2 x (ys ++ [y]) = y := by
        rw [hfold]; simp [pyMax2, hlt]
      refine ⟨ys.length + 1, by simp, ?_, ?_, ?_⟩
      · rw [hy]
        simp only [List.getD_cons_succ]
        rw [List.getD_append_right] <;> simp
      · intro k hk
        rw [hy, getD_cons_append_lt x y ys k (by simpa using hk)]
        calc ((x :: ys).getD k dfltEntry).delta ≤ r.delta :=
              hmax k (by simpa using hk)
          _ < y.delta := hlt
      · intro k hk
        have hk2 : k < ys.length + 2 := by simp at hk; omega
        rcases Nat.lt_or_ge k (ys.length + 1) with hk' | hk'
        · rw [hy, getD_cons_append_lt x y ys k (by simpa using hk')]
          exact le_of_lt (lt_of_le_of_lt (hmax k (by simpa using hk')) hlt)
        · have hkeq : k = ys.length + 1 := by omega
          subst hkeq
          rw [hy]
          simp only [List.getD_cons_succ]
          rw [List.getD_append_right] <;> simp
    · -- the new element does not improve: the old first maximum stands
      have hyr : List.foldl pyMax2 x (ys ++ [y]) = r := by
        rw [hfold]; simp [pyMax2, hlt]
      refine ⟨j, by simp at hj ⊢; omega, ?_, ?_, ?_⟩
      · rw [hyr, getD_cons_append_lt x y ys j hj]; exact hget
      · intro k hk
        rw [hyr, getD_cons_append_lt x y ys k (lt_trans hk hj)]
        exact hfirst k hk
      · intro k hk
        have hk2 : k < ys.length + 2 := by simp at hk; omega
        rcases Nat.lt_or_ge k (ys.length + 1) with hk' | hk'
        · rw [hyr, getD_cons_append_lt x y ys k (by simpa using hk')]
          exact hmax k (by simpa using hk')
        · have hkeq : k = ys.length + 1 := by omega
          subst hkeq
          rw [hyr]
          simp only [List.getD_cons_succ]
          rw [List.getD_append_right] <;> simp
          exact le_of_not_lt hlt

/-- Characterisation of `python_max` on a nonempty list: it succeeds and
returns the element at the first index attaining the maximal `delta`. -/
theorem python_max_first (l : List DeltaEntry) (hl : l ≠ []) :
    ∃ j r, python_max l = .ok r ∧ j < l.length ∧
      l.getD j dfltEntry = r ∧
      (∀ k, k < j → (l.getD k dfltEntry).delta < r.delta) ∧
      (∀ k, k < l.length → (l.getD k dfltEntry).delta ≤ r.delta) := by
  match l with
  | [] => exact absurd rfl hl
  | x :: xs =>
    obtain ⟨j, hj, hget, hfirst, hmax⟩ := foldl_pyMax2_first x xs
    exact ⟨j, List.foldl pyMax2 x xs, rfl, hj, hget, hfirst, hmax⟩

theorem deltas_list_length (points : List Point) :
    (deltas_list points).length = points.length - 2 := by
  simp [deltas_list]

theorem deltas_list_getD (points : List Point) (k : Nat)
    (hk : k < points.length - 2) :
    (deltas_list points).getD k dfltEntry = deltaEntryAt points (k + 1) := by
  have hk' : k < (deltas_list points).length := by
    rw [deltas_list_length]; exact hk
  rw [List.getD_eq_getElem _ _ hk']
  simp only [deltas_list, List.getElem_map]
  congr 1
  rw [List.getElem_range']
  omega

/-- The spec's §4.1 formula agrees with the delta computed by the code's
loop body at every index. -/
theorem spec_delta_eq (points : List Point) (i : Nat) :
    spec_delta points i = (deltaEntryAt points i).delta := by
  simp only [spec_delta, deltaEntryAt, sum_by_index, point_val]
  by_cases hR : (points.getD i dfltPoint).resistance = 0 <;> simp [hR]

theorem deltaEntryAt_home_id (points : List Point) (i : Nat) :
    (deltaEntryAt points i).home_id = (points.getD i dfltPoint).home_id := rfl

/-- The summed current of all points strictly after index `i+1`: the
`future_ampers_sum` of the loop body (`sum_by_index(points[i+2:], index=1)`). -/
def future_ampers (points : List Point) (i : Nat) : ℚ :=
  sum_by_index (points.drop (i + 2)) 1

/-- A guarded candidate: zero resistance or zero future current sum makes
the computed delta exactly 0. -/
theorem deltaEntryAt_guard (points : List Point) (i : Nat)
    (h : (points.getD i dfltPoint).resistance = 0 ∨ future_ampers points i = 0) :
    (deltaEntryAt points i).delta = 0 := by
  unfold future_ampers at h
  simp only [deltaEntryAt]
  rcases h with h | h
  · rw [if_pos (Or.inr h)]
  · rw [if_pos (Or.inl h)]

/-- An unguarded candidate: with nonzero resistance and nonzero future
current sum, the delta is the raw ratio computed by the code. -/
theorem deltaEntryAt_unguarded (points : List Point) (i : Nat)
    (hR : (points.getD i dfltPoint).resistance ≠ 0)
    (hS : future_ampers points i ≠ 0) :
    (deltaEntryAt points i).delta =
      (((points.getD i dfltPoint).volts - (points.getD (i + 1) dfltPoint).volts) ^ 2
          / (points.getD i dfltPoint).resistance)
        / (future_ampers points i ^ 2 * (points.getD i dfltPoint).resistance) := by
  unfold future_ampers at hS ⊢
  simp only [deltaEntryAt]
  rw [if_neg (not_or.mpr ⟨hS, hR⟩), if_pos hR]

/-- The raw ratio in closed form: `(V_i - V_next)^2 / (R^2 * S^2)`. -/
theorem deltaEntryAt_closed_form (points : List Point) (i : Nat)
    (hR : (points.getD i dfltPoint).resistance ≠ 0)
    (hS : future_ampers points i ≠ 0) :
    (deltaEntryAt points i).delta =
      ((points.getD i dfltPoint).volts - (points.getD (i + 1) dfltPoint).volts) ^ 2
        / ((points.getD i dfltPoint).resistance ^ 2 * future_ampers points i ^ 2) := by
  rw [deltaEntryAt_unguarded points i hR hS]
  field_simp
  ring

/-- Every computed candidate delta is nonnegative, with no hypothesis on
the sign of the resistance or of the currents. -/
theorem deltaEntryAt_nonneg (points : List Point) (i : Nat) :
    0 ≤ (deltaEntryAt points i).delta := by
  by_cases hR : (points.getD i dfltPoint).resistance = 0
  · rw [deltaEntryAt_guard points i (Or.inl hR)]
  · by_cases hS : future_ampers points i = 0
    · rw [deltaEntryAt_guard points i (Or.inr hS)]
    · rw [deltaEntryAt_closed_form points i hR hS]
      positivity

/-- The last candidate index `n-2` has an empty future window, hence a
zero future current sum and delta 0. -/
theorem deltaEntryAt_last (points : List Point) (h3 : 3 ≤ points.length) :
    future_ampers points (points.length - 2) = 0 ∧
      (deltaEntryAt points (points.length - 2)).delta = 0 := by
  have hdrop : points.drop (points.length - 2 + 2) = [] :=
    List.drop_eq_nil_of_le (by omega)
  have hS : future_ampers points (points.length - 2) = 0 := by
    simp [future_ampers, hdrop, sum_by_index]
  exact ⟨hS, deltaEntryAt_guard points _ (Or.inr hS)⟩

theorem deltas_list_three (points : List Point) (h : points.length = 3) :
    deltas_list points = [deltaEntryAt points 1] := by
  unfold deltas_list
  rw [h]
  rfl

theorem analyze_points_three (points : List Point) (h : points.length = 3) :
    analyze_points points = .ok (deltaEntryAt points 1) := by
  rw [analyze_points, deltas_list_three points h]
  rfl

theorem analyze_points_lt3 (points : List Point) (h : points.length < 3) :
    deltas_list points = [] ∧ analyze_points points = .error .emptyMax := by
  have hlen : points.length - 2 = 0 := by omega
  have hd : deltas_list points = [] := by simp [deltas_list, hlen]
  exact ⟨hd, by rw [analyze_points, hd]; rfl⟩

theorem run_foldl (pts : List Point) (l : List Nat) (acc : List DeltaEntry) :
    l.foldl (fun s i => (s.1 ++ [deltaEntryAt s.2 i], s.2)) (acc, pts)
      = (acc ++ l.map (deltaEntryAt pts), pts) := by
  induction l generalizing acc with
  | nil => simp
  | cons i l ih =>
    rw [List.foldl_cons, ih]
    simp

theorem analyze_points_run_eq (points : List Point) :
    analyze_points_run points = (analyze_points points, points) := by
  simp only [analyze_points_run]
  rw [run_foldl]
  simp [analyze_points, deltas_list]

/-! ### Concrete inputs used by the witnesses -/

/-- A two-point input, below the three-point minimum. -/
def twoPts : List Point :=
  [⟨1, 1, 1, 1, 1⟩, ⟨2, 2, 2, 2, 2⟩]

/-- A three-point input with one candidate index. -/
def threePts : List Point :=
  [⟨1, 10, 1, 0, 2⟩, ⟨2, 8, 2, 0, 1⟩, ⟨3, 6, 3, 0, 1⟩]

/-- A four-point input whose two candidates tie (all currents are 0, so
both deltas are guarded to 0). -/
def tiePts : List Point :=
  [⟨1, 1, 0, 0, 1⟩, ⟨2, 2, 0, 0, 1⟩, ⟨3, 3, 0, 0, 1⟩, ⟨4, 4, 0, 0, 1⟩]

/-- A four-point input whose candidate 1 has resistance 0 but nonzero
voltage drop and nonzero future current. -/
def zeroRpts : List Point :=
  [⟨1, 5, 1, 0, 1⟩, ⟨2, 10, 2, 0, 0⟩, ⟨3, 7, 3, 0, 1⟩, ⟨4, 4, 5, 0, 1⟩]

/-- A four-point input whose candidate 1 has negative resistance and
nonzero future current. -/
def negRpts : List Point :=
  [⟨1, 1, 1, 0, 1⟩, ⟨2, 5, 1, 0, -2⟩, ⟨3, 2, 1, 0, 1⟩, ⟨4, 0, 3, 0, 1⟩]

/-- A four-point input whose candidate 1 has positive resistance and
nonzero future current. -/
def posRpts : List Point :=
  [⟨1, 1, 1, 0, 1⟩, ⟨2, 3, 1, 0, 2⟩, ⟨3, 2, 1, 0, 1⟩, ⟨4, 0, 5, 0, 1⟩]

/-! ### Claim theorems -/

/-- Claim C1: on any input of at least 3 points, `analyze_points` returns
the identifier of an interior record at some index `i ∈ 1..n-2` paired
with exactly the §4.1 delta formula at that index, and that delta is the
maximum over all candidate indices. -/
theorem analyze_points_matches_spec_formula_and_max (points : List Point)
    (h3 : 3 ≤ points.length) :
    ∃ i, 1 ≤ i ∧ i ≤ points.length - 2 ∧
      analyze_points points =
        .ok ⟨spec_delta points i, (points.getD i dfltPoint).home_id⟩ ∧
      ∀ j, 1 ≤ j → j ≤ points.length - 2 →
        spec_delta points j ≤ spec_delta points i := by
  have hne : deltas_list points ≠ [] := by
    intro hnil
    have hl := deltas_list_length points
    rw [hnil] at hl
    simp at hl
    omega
  obtain ⟨j, r, hok, hj, hget, hfirst, hmax⟩ := python_max_first _ hne
  rw [deltas_list_length] at hj
  have hr : r = deltaEntryAt points (j + 1) := by
    rw [← deltas_list_getD points j hj, hget]
  refine ⟨j + 1, by omega, by omega, ?_, ?_⟩
  · rw [analyze_points, hok]
    congr 1
    rw [hr, spec_delta_eq, ← deltaEntryAt_home_id]
  · intro jc h1 h2
    have hjc : jc - 1 < points.length - 2 := by omega
    have hle := hmax (jc - 1) (by rw [deltas_list_length]; omega)
    rw [deltas_list_getD points (jc - 1) hjc,
      show jc - 1 + 1 = jc by omega] at hle
    calc spec_delta points jc = (deltaEntryAt points jc).delta :=
          spec_delta_eq points jc
      _ ≤ r.delta := hle
      _ = spec_delta points (j + 1) := by rw [hr, spec_delta_eq]

/-- Witness for C1 at the 19-point sample series. -/
theorem analyze_points_matches_spec_formula_and_max_witness :
    3 ≤ data.length ∧
      ∃ i, 1 ≤ i ∧ i ≤ data.length - 2 ∧
        analyze_points data =
          .ok ⟨spec_delta data i, (data.getD i dfltPoint).home_id⟩ ∧
        ∀ j, 1 ≤ j → j ≤ data.length - 2 →
          spec_delta data j ≤ spec_delta data i :=
  ⟨by decide, analyze_points_matches_spec_formula_and_max data (by decide)⟩

/-- Claim C2 (as the code behaves): on fewer than 3 points the `deltas`
list is empty and `analyze_points` fails with the `ValueError` of `max()`
on an empty sequence — the source has no explicit insufficient-data
guard. -/
theorem analyze_points_insufficient_input (points : List Point)
    (h : points.length < 3) :
    deltas_list points = [] ∧
      analyze_points points = .error AnalyzeError.emptyMax :=
  analyze_points_lt3 points h

/-- Witness for C2 at a two-point input. -/
theorem analyze_points_insufficient_input_witness :
    twoPts.length < 3 ∧
      (deltas_list twoPts = [] ∧
        analyze_points twoPts = .error AnalyzeError.emptyMax) :=
  ⟨by decide, analyze_points_insufficient_input twoPts (by decide)⟩

/-- Claim C3: a candidate with resistance 0 or with zero summed future
current gets delta exactly 0; the computation is total, no error is
possible at such a candidate. -/
theorem candidate_zero_guard (points : List Point) (i : Nat)
    (h1 : 1 ≤ i) (h2 : i ≤ points.length - 2)
    (h : (points.getD i dfltPoint).resistance = 0 ∨ future_ampers points i = 0) :
    (deltaEntryAt points i).delta = 0 :=
  deltaEntryAt_guard points i h

/-- Witness for C3: candidate 1 of `zeroRpts` has resistance 0, nonzero
voltage drop and nonzero future current, and still gets delta 0. -/
theorem candidate_zero_guard_witness :
    (1 ≤ 1 ∧ 1 ≤ zeroRpts.length - 2 ∧
      ((zeroRpts.getD 1 dfltPoint).resistance = 0 ∨ future_ampers zeroRpts 1 = 0)) ∧
      (deltaEntryAt zeroRpts 1).delta = 0 := by
  have hz : (zeroRpts.getD 1 dfltPoint).resistance = 0 ∨ future_ampers zeroRpts 1 = 0 :=
    Or.inl (by norm_num [zeroRpts, List.getD])
  exact ⟨⟨le_refl 1, by decide, hz⟩,
    candidate_zero_guard zeroRpts 1 (le_refl 1) (by decide) hz⟩

/-- Claim C4: when a candidate index `j` attains the maximal delta and
every earlier candidate is strictly below it (in particular when two or
more candidates tie at the maximum and `j` is the first of them),
`analyze_points` returns candidate `j`: the scan is a stable max. -/
theorem analyze_points_stable_first_max (points : List Point) (j : Nat)
    (hj1 : 1 ≤ j) (hj2 : j ≤ points.length - 2)
    (hmax : ∀ m ∈ List.range' 1 (points.length - 2),
      (deltaEntryAt points m).delta ≤ (deltaEntryAt points j).delta)
    (hfirst : ∀ m ∈ List.range' 1 (points.length - 2), m < j →
      (deltaEntryAt points m).delta < (deltaEntryAt points j).delta) :
    analyze_points points = .ok (deltaEntryAt points j) := by
  have hne : deltas_list points ≠ [] := by
    intro hnil
    have hl := deltas_list_length points
    rw [hnil] at hl
    simp at hl
    omega
  obtain ⟨j₀, r, hok, hj₀, hget, hfirst₀, hmax₀⟩ := python_max_first _ hne
  rw [deltas_list_length] at hj₀
  have hr : r = deltaEntryAt points (j₀ + 1) := by
    rw [← deltas_list_getD points j₀ hj₀, hget]
  have hjeq : j₀ + 1 = j := by
    by_contra hne'
    rcases Nat.lt_or_ge (j₀ + 1) j with hlt | hge
    · have h1 := hfirst (j₀ + 1)
        (by rw [List.mem_range'_1]; omega) hlt
      have h2 := hmax₀ (j - 1) (by rw [deltas_list_length]; omega)
      rw [deltas_list_getD points (j - 1) (by omega),
        show j - 1 + 1 = j by omega, hr] at h2
      exact absurd (lt_of_le_of_lt h2 h1) (lt_irrefl _)
    · have h1 := hfirst₀ (j - 1) (by omega)
      rw [deltas_list_getD points (j - 1) (by omega),
        show j - 1 + 1 = j by omega, hr] at h1
      have h2 := hmax (j₀ + 1) (by rw [List.mem_range'_1]; omega)
      exact absurd (lt_of_le_of_lt h2 h1) (lt_irrefl _)
  rw [analyze_points, hok, hr, hjeq]

/-- Witness for C4: on `tiePts` both candidates 1 and 2 have delta 0, and
the first candidate is returned. -/
theorem analyze_points_stable_first_max_witness :
    (1 ≤ 1 ∧ 1 ≤ tiePts.length - 2 ∧
      (∀ m ∈ List.range' 1 (tiePts.length - 2),
        (deltaEntryAt tiePts m).delta ≤ (deltaEntryAt tiePts 1).delta) ∧
      (∀ m ∈ List.range' 1 (tiePts.length - 2), m < 1 →
        (deltaEntryAt tiePts m).delta < (deltaEntryAt tiePts 1).delta)) ∧
      analyze_points tiePts = .ok (deltaEntryAt tiePts 1) := by
  have e1 : (deltaEntryAt tiePts 1).delta = 0 := by
    norm_num [deltaEntryAt, tiePts, sum_by_index, point_val, List.getD]
  have e2 : (deltaEntryAt tiePts 2).delta = 0 := by
    norm_num [deltaEntryAt, tiePts, sum_by_index, point_val, List.getD]
  have hmax : ∀ m ∈ List.range' 1 (tiePts.length - 2),
      (deltaEntryAt tiePts m).delta ≤ (deltaEntryAt tiePts 1).delta := by
    intro m hm
    rw [List.mem_range'_1] at hm
    have hm' : m = 1 ∨ m = 2 := by
      have hl : tiePts.length = 4 := by decide
      omega
    rcases hm' with rfl | rfl
    · exact le_refl _
    · rw [e1, e2]
  have hfirst : ∀ m ∈ List.range' 1 (tiePts.length - 2), m < 1 →
      (deltaEntryAt tiePts m).delta < (deltaEntryAt tiePts 1).delta := by
    intro m hm hlt
    rw [List.mem_range'_1] at hm
    omega
  exact ⟨⟨le_refl 1, by decide, hmax, hfirst⟩,
    analyze_points_stable_first_max tiePts 1 (le_refl 1) (by decide) hmax hfirst⟩

/-- Claim C5: on exactly 3 points the candidate list is the single entry
at index 1 and `analyze_points` returns it unconditionally. -/
theorem analyze_points_exactly_three (points : List Point)
    (h : points.length = 3) :
    deltas_list points = [deltaEntryAt points 1] ∧
      analyze_points points = .ok (deltaEntryAt points 1) :=
  ⟨deltas_list_three points h, analyze_points_three points h⟩

/-- Witness for C5 at a concrete three-point input. -/
theorem analyze_points_exactly_three_witness :
    threePts.length = 3 ∧
      (deltas_list threePts = [deltaEntryAt threePts 1] ∧
        analyze_points threePts = .ok (deltaEntryAt threePts 1)) :=
  ⟨by decide, analyze_points_exactly_three threePts (by decide)⟩

/-- Claim C6: at a candidate with nonzero resistance and nonzero future
current sum, the delta is the raw ratio `volt_power / amper_power` and is
nonnegative. -/
theorem candidate_delta_raw_ratio_nonneg (points : List Point) (i : Nat)
    (h1 : 1 ≤ i) (h2 : i ≤ points.length - 2)
    (hR : (points.getD i dfltPoint).resistance ≠ 0)
    (hS : future_ampers points i ≠ 0) :
    (deltaEntryAt points i).delta =
      (((points.getD i dfltPoint).volts - (points.getD (i + 1) dfltPoint).volts) ^ 2
          / (points.getD i dfltPoint).resistance)
        / (future_ampers points i ^ 2 * (points.getD i dfltPoint).resistance) ∧
      0 ≤ (deltaEntryAt points i).delta :=
  ⟨deltaEntryAt_unguarded points i hR hS, deltaEntryAt_nonneg points i⟩

/-- Witness for C6 at candidate 1 of `posRpts`. -/
theorem candidate_delta_raw_ratio_nonneg_witness :
    (1 ≤ 1 ∧ 1 ≤ posRpts.length - 2 ∧
      (posRpts.getD 1 dfltPoint).resistance ≠ 0 ∧ future_ampers posRpts 1 ≠ 0) ∧
      ((deltaEntryAt posRpts 1).delta =
        (((posRpts.getD 1 dfltPoint).volts - (posRpts.getD 2 dfltPoint).volts) ^ 2
            / (posRpts.getD 1 dfltPoint).resistance)
          / (future_ampers posRpts 1 ^ 2 * (posRpts.getD 1 dfltPoint).resistance) ∧
        0 ≤ (deltaEntryAt posRpts 1).delta) := by
  have hR : (posRpts.getD 1 dfltPoint).resistance ≠ 0 := by
    norm_num [posRpts, List.getD]
  have hS : future_ampers posRpts 1 ≠ 0 := by
    norm_num [posRpts, future_ampers, sum_by_index, point_val]
  exact ⟨⟨le_refl 1, by decide, hR, hS⟩,
    candidate_delta_raw_ratio_nonneg posRpts 1 (le_refl 1) (by decide) hR hS⟩

/-- Claim C7: `analyze_points` is deterministic — equal input sequences
give equal results; the embedding is a function of the input alone. -/
theorem analyze_points_deterministic (p q : List Point) (h : p = q) :
    analyze_points p = analyze_points q := by
  rw [h]

/-- Witness for C7 at the sample series. -/
theorem analyze_points_deterministic_witness :
    data = data ∧ analyze_points data = analyze_points data :=
  ⟨rfl, analyze_points_deterministic data data rfl⟩

/-- Claim C8: the state-explicit translation returns the `points` list
unchanged and the same answer as the pure function — the analyzer has no
side effect on its input or on any other state. -/
theorem analyze_points_no_side_effects (points : List Point) :
    (analyze_points_run points).2 = points ∧
      (analyze_points_run points).1 = analyze_points points := by
  rw [analyze_points_run_eq]
  exact ⟨rfl, rfl⟩

/-- Claim C9: the last candidate index `n-2` always gets delta 0 (its
future window is empty), so on exactly 3 points the returned delta is 0
whatever the measurements are. -/
theorem last_candidate_delta_zero (points : List Point)
    (h3 : 3 ≤ points.length) :
    (deltaEntryAt points (points.length - 2)).delta = 0 ∧
      (points.length = 3 →
        analyze_points points = .ok (deltaEntryAt points 1) ∧
          (deltaEntryAt points 1).delta = 0) := by
  refine ⟨(deltaEntryAt_last points h3).2, fun h => ⟨analyze_points_three points h, ?_⟩⟩
  have hz := (deltaEntryAt_last points h3).2
  rw [h] at hz
  simpa using hz

/-- Witness for C9 at a concrete three-point input. -/
theorem last_candidate_delta_zero_witness :
    3 ≤ threePts.length ∧
      ((deltaEntryAt threePts (threePts.length - 2)).delta = 0 ∧
        (threePts.length = 3 →
          analyze_points threePts = .ok (deltaEntryAt threePts 1) ∧
            (deltaEntryAt threePts 1).delta = 0)) :=
  ⟨by decide, last_candidate_delta_zero threePts (by decide)⟩

/-- Claim C10: at a candidate with nonzero resistance and nonzero future
current sum the delta equals `(V_i - V_next)^2 / (R^2 * S^2)`, hence it is
nonnegative for every nonzero resistance, negative resistance included. -/
theorem candidate_delta_closed_form_nonneg (points : List Point) (i : Nat)
    (h1 : 1 ≤ i) (h2 : i ≤ points.length - 2)
    (hR : (points.getD i dfltPoint).resistance ≠ 0)
    (hS : future_ampers points i ≠ 0) :
    (deltaEntryAt points i).delta =
      ((points.getD i dfltPoint).volts - (points.getD (i + 1) dfltPoint).volts) ^ 2
        / ((points.getD i dfltPoint).resistance ^ 2 * future_ampers points i ^ 2) ∧
      0 ≤ (deltaEntryAt points i).delta :=
  ⟨deltaEntryAt_closed_form points i hR hS, deltaEntryAt_nonneg points i⟩

/-- Witness for C10 at candidate 1 of `negRpts`, whose resistance is
negative. -/
theorem candidate_delta_closed_form_nonneg_witness :
    (1 ≤ 1 ∧ 1 ≤ negRpts.length - 2 ∧
      (negRpts.getD 1 dfltPoint).resistance ≠ 0 ∧ future_ampers negRpts 1 ≠ 0) ∧
      ((deltaEntryAt negRpts 1).delta =
        ((negRpts.getD 1 dfltPoint).volts - (negRpts.getD 2 dfltPoint).volts) ^ 2
          / ((negRpts.getD 1 dfltPoint).resistance ^ 2 * future_ampers negRpts 1 ^ 2) ∧
        0 ≤ (deltaEntryAt negRpts 1).delta) := by
  have hR : (negRpts.getD 1 dfltPoint).resistance ≠ 0 := by
    norm_num [negRpts, List.getD]
  have hS : future_ampers negRpts 1 ≠ 0 := by
    norm_num [negRpts, future_ampers, sum_by_index, point_val]
  exact ⟨⟨le_refl 1, by decide, hR, hS⟩,
    candidate_delta_closed_form_nonneg negRpts 1 (le_refl 1) (by decide) hR hS⟩
